import Mathlib

/-!
# Verification of the mob movement / collision / steering core

Shallow embedding of the entity subsystem of the action-RPG repository
(`src/entity.cpp`, `include/entity.h`).  `float` arithmetic is modelled by
exact real arithmetic; 3-component GLM vectors become the `Vec3` structure
below.  The entity registry is modelled as a `List Entity`; the neighbor
scans that in C++ skip `this` by pointer identity receive here the list of
the *other* registry entries.  Fields of the C++ classes that the movement
logic never reads (health, energy, rotation, scale, color, attackSpeed) are
omitted.
-/

open Classical

noncomputable section

/-- 3-component vector, the model of `glm::vec3`. -/
structure Vec3 where
  x : ℝ
  y : ℝ
  z : ℝ

namespace Vec3

@[ext] theorem ext' (a b : Vec3) (hx : a.x = b.x) (hy : a.y = b.y) (hz : a.z = b.z) :
    a = b := by
  cases a; cases b; simp_all

instance : Zero Vec3 := ⟨⟨0, 0, 0⟩⟩
instance : Add Vec3 := ⟨fun a b => ⟨a.x + b.x, a.y + b.y, a.z + b.z⟩⟩
instance : Sub Vec3 := ⟨fun a b => ⟨a.x - b.x, a.y - b.y, a.z - b.z⟩⟩
instance : Neg Vec3 := ⟨fun a => ⟨-a.x, -a.y, -a.z⟩⟩
instance : SMul ℝ Vec3 := ⟨fun c a => ⟨c * a.x, c * a.y, c * a.z⟩⟩

@[simp] theorem zero_x : (0 : Vec3).x = 0 := rfl
@[simp] theorem zero_y : (0 : Vec3).y = 0 := rfl
@[simp] theorem zero_z : (0 : Vec3).z = 0 := rfl
@[simp] theorem add_x (a b : Vec3) : (a + b).x = a.x + b.x := rfl
@[simp] theorem add_y (a b : Vec3) : (a + b).y = a.y + b.y := rfl
@[simp] theorem add_z (a b : Vec3) : (a + b).z = a.z + b.z := rfl
@[simp] theorem sub_x (a b : Vec3) : (a - b).x = a.x - b.x := rfl
@[simp] theorem sub_y (a b : Vec3) : (a - b).y = a.y - b.y := rfl
@[simp] theorem sub_z (a b : Vec3) : (a - b).z = a.z - b.z := rfl
@[simp] theorem neg_x (a : Vec3) : (-a).x = -a.x := rfl
@[simp] theorem neg_y (a : Vec3) : (-a).y = -a.y := rfl
@[simp] theorem neg_z (a : Vec3) : (-a).z = -a.z := rfl
@[simp] theorem smul_x (c : ℝ) (a : Vec3) : (c • a).x = c * a.x := rfl
@[simp] theorem smul_y (c : ℝ) (a : Vec3) : (c • a).y = c * a.y := rfl
@[simp] theorem smul_z (c : ℝ) (a : Vec3) : (c • a).z = c * a.z := rfl
@[simp] theorem mk_x (a b c : ℝ) : (Vec3.mk a b c).x = a := rfl
@[simp] theorem mk_y (a b c : ℝ) : (Vec3.mk a b c).y = b := rfl
@[simp] theorem mk_z (a b c : ℝ) : (Vec3.mk a b c).z = c := rfl

/-- `glm::dot`. -/
def dot (a b : Vec3) : ℝ := a.x * b.x + a.y * b.y + a.z * b.z

/-- `glm::cross`. -/
def cross (a b : Vec3) : Vec3 :=
  ⟨a.y * b.z - a.z * b.y, a.z * b.x - a.x * b.z, a.x * b.y - a.y * b.x⟩

/-- `glm::length`: the Euclidean norm. -/
def length (a : Vec3) : ℝ := Real.sqrt (a.x ^ 2 + a.y ^ 2 + a.z ^ 2)

/-- `glm::normalize`: scale to unit length (meaningful only for nonzero input). -/
def normalize (a : Vec3) : Vec3 := (1 / a.length) • a

theorem length_nonneg (a : Vec3) : 0 ≤ a.length := Real.sqrt_nonneg _

@[simp] theorem length_zero : (0 : Vec3).length = 0 := by
  simp [length]

theorem length_eq_zero_iff (a : Vec3) : a.length = 0 ↔ a = 0 := by
  constructor
  · intro h
    have h2 : a.x ^ 2 + a.y ^ 2 + a.z ^ 2 = 0 := by
      have hnn : 0 ≤ a.x ^ 2 + a.y ^ 2 + a.z ^ 2 := by positivity
      have := Real.sqrt_eq_zero hnn |>.mp h
      exact this
    have hx : a.x = 0 := by nlinarith [sq_nonneg a.x, sq_nonneg a.y, sq_nonneg a.z]
    have hy : a.y = 0 := by nlinarith [sq_nonneg a.x, sq_nonneg a.y, sq_nonneg a.z]
    have hz : a.z = 0 := by nlinarith [sq_nonneg a.x, sq_nonneg a.y, sq_nonneg a.z]
    ext <;> simp [hx, hy, hz]
  · rintro rfl; simp

theorem length_pos_of_ne_zero {a : Vec3} (h : a ≠ 0) : 0 < a.length := by
  rcases lt_or_eq_of_le (length_nonneg a) with h1 | h1
  · exact h1
  · exact absurd ((length_eq_zero_iff a).mp h1.symm) h

theorem length_smul (c : ℝ) (a : Vec3) : (c • a).length = |c| * a.length := by
  unfold length
  have : (c • a).x ^ 2 + (c • a).y ^ 2 + (c • a).z ^ 2
      = c ^ 2 * (a.x ^ 2 + a.y ^ 2 + a.z ^ 2) := by
    simp; ring
  rw [this, Real.sqrt_mul (sq_nonneg c), Real.sqrt_sq_eq_abs]

theorem length_normalize {a : Vec3} (h : a ≠ 0) : a.normalize.length = 1 := by
  have hpos := length_pos_of_ne_zero h
  rw [normalize, length_smul, abs_of_pos (by positivity : (0:ℝ) < 1 / a.length)]
  field_simp

/-- Norm of an x-axis-aligned vector, the workhorse for concrete scenarios. -/
theorem length_mk_x (a : ℝ) : (Vec3.mk a 0 0).length = |a| := by
  unfold length
  simp [Real.sqrt_sq_eq_abs]

theorem length_mk_xz (a b : ℝ) : (Vec3.mk a 0 b).length = Real.sqrt (a ^ 2 + b ^ 2) := by
  unfold length
  norm_num

@[simp] theorem mk_add_mk (a b c d e f : ℝ) :
    (Vec3.mk a b c) + (Vec3.mk d e f) = Vec3.mk (a + d) (b + e) (c + f) := rfl

@[simp] theorem mk_sub_mk (a b c d e f : ℝ) :
    (Vec3.mk a b c) - (Vec3.mk d e f) = Vec3.mk (a - d) (b - e) (c - f) := rfl

@[simp] theorem smul_mk (r a b c : ℝ) :
    r • (Vec3.mk a b c) = Vec3.mk (r * a) (r * b) (r * c) := rfl

@[simp] theorem add_zero' (v : Vec3) : v + 0 = v := by ext <;> simp

@[simp] theorem zero_add' (v : Vec3) : 0 + v = v := by ext <;> simp

@[simp] theorem sub_zero' (v : Vec3) : v - 0 = v := by ext <;> simp

@[simp] theorem sub_self' (v : Vec3) : v - v = 0 := by ext <;> simp

@[simp] theorem smul_zero' (r : ℝ) : r • (0 : Vec3) = 0 := by ext <;> simp

@[simp] theorem mk_zero_eq : Vec3.mk 0 0 0 = 0 := rfl

@[simp] theorem neg_mk (a b c : ℝ) : -(Vec3.mk a b c) = Vec3.mk (-a) (-b) (-c) := rfl

@[simp] theorem zero_sub' (v : Vec3) : (0 : Vec3) - v = -v := by ext <;> simp

theorem length_neg' (v : Vec3) : (-v).length = v.length := by
  unfold length; norm_num

theorem length_sub_comm (a b : Vec3) : (a - b).length = (b - a).length := by
  have h : a - b = -(b - a) := by ext <;> simp
  rw [h, length_neg']

theorem normalize_smul_of_pos {r : ℝ} (hr : 0 < r) (u : Vec3) (hu : u.length = 1) :
    (r • u).normalize = u := by
  unfold normalize
  rw [length_smul, hu, abs_of_pos hr]
  ext <;> simp <;> field_simp

/-- Sum of a list of vectors, via the same left fold the accumulation loops
perform. -/
def vsum (l : List Vec3) : Vec3 := l.foldl (· + ·) 0

theorem foldl_add_shift (l : List Vec3) (v : Vec3) :
    l.foldl (· + ·) v = v + l.foldl (· + ·) 0 := by
  induction l generalizing v with
  | nil => simp
  | cons a l ih =>
    simp only [List.foldl_cons]
    rw [ih (v + a), ih (0 + a)]
    ext <;> simp <;> ring

@[simp] theorem vsum_nil : vsum [] = 0 := rfl

theorem vsum_cons (a : Vec3) (l : List Vec3) : vsum (a :: l) = a + vsum l := by
  unfold vsum
  simp only [List.foldl_cons]
  rw [foldl_add_shift]
  simp

end Vec3

/-- Which C++ dynamic type an entity has: a plain `Entity` (update is a no-op,
`dynamic_pointer_cast<MobEntity>` fails), a `MobEntity` (including
`PlayerEntity` / `EnemyEntity`, which inherit `MobEntity::update`), or a
`BasicShooterEnemy` with its overriding AI update. -/
inductive EKind
  | plain
  | mob
  | shooter

/-- Model of the entity records of `entity.h`.  `party` models the
`BasicShooterEnemy::party` pointer as indices into the registry list (the game
stores the very party members that it also adds to the registry). -/
structure Entity where
  position : Vec3
  active : Bool
  movementSpeed : ℝ
  radius : ℝ
  targetPosition : Vec3
  isMoving : Bool
  kind : EKind
  party : List Nat

namespace Entity

/-- Whether `dynamic_pointer_cast<MobEntity>` succeeds on this entity. -/
def mobile (e : Entity) : Bool :=
  match e.kind with
  | .plain => false
  | .mob => true
  | .shooter => true

end Entity

namespace MobEntity

/-- `MobEntity::moveTo`. -/
def moveTo (e : Entity) (target : Vec3) : Entity :=
  { e with targetPosition := target, isMoving := true }

/-- `MobEntity::stop`. -/
def stop (e : Entity) : Entity :=
  { e with isMoving := false }

/-- The neighbor filter every scan applies: skip self (handled by the caller
passing only the other entities), failed mobile downcasts, and inactive
entities. -/
def considered (o : Entity) : Prop := o.mobile = true ∧ o.active = true

/-- One iteration of the collision-processing loop of
`MobEntity::resolveCollisions` (lines 78-105): slide along the tangent plane
with friction 0.7, then hard-clamp to touching distance if still penetrating. -/
def slideStep (e : Entity) (movement : Vec3) (finalPosition : Vec3) (o : Entity) : Vec3 :=
  let toOther := o.position - finalPosition
  let currentDist := toOther.length
  let minDistance := e.radius + o.radius
  if currentDist < minDistance ∧ currentDist > 0.001 then
    let collisionNormal := (-(1 / currentDist)) • toOther
    let slideDirection := movement - (movement.dot collisionNormal) • collisionNormal
    let fp := e.position + (0.7 : ℝ) • slideDirection
    let afterSlideToOther := o.position - fp
    let afterSlideDist := afterSlideToOther.length
    if afterSlideDist < minDistance ∧ afterSlideDist > 0.001 then
      o.position - minDistance • afterSlideToOther.normalize
    else fp
  else finalPosition

/-- The collision-collection predicate of `MobEntity::resolveCollisions`
(lines 62-75): the neighbor's circle overlaps the circle at the desired
position. -/
def collides (e : Entity) (desiredPosition : Vec3) (o : Entity) : Prop :=
  considered o ∧ (o.position - desiredPosition).length < e.radius + o.radius

/-- `MobEntity::resolveCollisions`: collect the overlapping neighbors against
the desired position, then process each in registry order with
slide-with-friction corrections. -/
def resolveCollisions (others : List Entity) (e : Entity) (desiredPosition : Vec3) : Vec3 :=
  let movement := desiredPosition - e.position
  let collisions := others.filter fun o => decide (collides e desiredPosition o)
  collisions.foldl (slideStep e movement) desiredPosition

/-- The neighbor-qualification predicate of `MobEntity::applySeparationForces`
(line 128): closer than 1.2 x (sum of radii), and beyond the 0.001 epsilon. -/
def sepQualifies (e : Entity) (o : Entity) : Prop :=
  considered o ∧
    (e.position - o.position).length < (e.radius + o.radius) * 1.2 ∧
    (e.position - o.position).length > 0.001

/-- The push-away contribution of one qualifying neighbor (lines 129-130). -/
def sepContribution (e : Entity) (o : Entity) : Vec3 :=
  let toOther := e.position - o.position
  let distance := toOther.length
  let preferredDistance := (e.radius + o.radius) * 1.2
  ((preferredDistance - distance) / preferredDistance) • ((1 / distance) • toOther)

/-- `MobEntity::applySeparationForces`: accumulate push-away vectors over the
neighbor scan, then nudge the position by the average times 2.0 times dt. -/
def applySeparationForces (others : List Entity) (e : Entity) (dt : ℝ) : Entity :=
  let acc := others.foldl
    (fun (acc : Vec3 × ℕ) o =>
      if sepQualifies e o then (acc.1 + sepContribution e o, acc.2 + 1) else acc)
    (0, 0)
  if acc.2 > 0 then
    { e with position := e.position + (2.0 * dt) • ((1 / (acc.2 : ℝ)) • acc.1) }
  else e

/-- The seeking block of `MobEntity::update` (lines 8-37), before the
separation-force call. -/
def moveStep (others : List Entity) (e : Entity) (dt : ℝ) : Entity :=
  if e.isMoving then
    let direction := e.targetPosition - e.position
    let distance := direction.length
    if distance > 0.1 then
      let dirn := direction.normalize
      let moveDistance := e.movementSpeed * dt
      let step : Vec3 × Bool :=
        if moveDistance ≥ distance then (e.targetPosition, false)
        else (e.position + moveDistance • dirn, e.isMoving)
      let finalPosition := resolveCollisions others e step.1
      if (e.targetPosition - finalPosition).length < 0.1 then
        { e with position := e.targetPosition, isMoving := false }
      else
        { e with position := finalPosition, isMoving := step.2 }
    else
      { e with position := e.targetPosition, isMoving := false }
  else e

/-- `MobEntity::update`: seeking movement with collision resolution, then the
continuous separation forces. -/
def update (others : List Entity) (e : Entity) (dt : ℝ) : Entity :=
  applySeparationForces others (moveStep others e dt) dt

/-- `glm::clamp` on scalars. -/
def clampR (v lo hi : ℝ) : ℝ := min (max v lo) hi

/-- The per-neighbor body of the avoidance scan of
`MobEntity::calculateSteeringForce` (lines 163-215); the accumulator carries
`(avoidanceForce, needsAvoidance)`. -/
def steerScanStep (e : Entity) (avoidanceRadius : ℝ) (futurePos : Vec3)
    (acc : Vec3 × Bool) (o : Entity) : Vec3 × Bool :=
  if considered o then
    let toOtherFuture := o.position - futurePos
    let futureDist := toOtherFuture.length
    let toOtherCurrent := o.position - e.position
    let currentDist := toOtherCurrent.length
    let effectiveRadius := e.radius + o.radius + 0.3
    if futureDist < effectiveRadius ∨ currentDist < avoidanceRadius then
      if currentDist > 0.01 then
        let toObstacle := toOtherCurrent.normalize
        let crossv := toObstacle.cross ⟨0, 1, 0⟩
        let perpendicular :=
          if crossv.length > 0.01 then crossv.normalize else (⟨1, 0, 0⟩ : Vec3)
        let leftCheck := e.position + effectiveRadius • perpendicular
        let rightCheck := e.position - effectiveRadius • perpendicular
        let leftClearance := (o.position - leftCheck).length
        let rightClearance := (o.position - rightCheck).length
        let chosenPerp := if rightClearance > leftClearance then -perpendicular else perpendicular
        let avoidanceStrength := clampR (1 - currentDist / avoidanceRadius) 0 1
        (acc.1 + avoidanceStrength • ((0.8 : ℝ) • chosenPerp - (0.2 : ℝ) • toObstacle), true)
      else (acc.1, true)
    else acc
  else acc

/-- `MobEntity::calculateSteeringForce`: zero when on top of the target,
otherwise a blend of the normalized seek direction with the accumulated
perpendicular avoidance forces, normalized at the end. -/
def calculateSteeringForce (others : List Entity) (e : Entity)
    (targetPos : Vec3) (avoidanceRadius : ℝ) : Vec3 :=
  let desiredDirection := targetPos - e.position
  let distToTarget := desiredDirection.length
  if distToTarget < 0.01 then 0
  else
    let seekForce := desiredDirection.normalize
    let futurePos := e.position + (e.movementSpeed * 0.5) • seekForce
    let acc := others.foldl (steerScanStep e avoidanceRadius futurePos) (0, false)
    let combinedForce :=
      if acc.2 then
        let avoidanceWeight := clampR acc.1.length 0 3
        (0.3 : ℝ) • seekForce + avoidanceWeight • acc.1
      else seekForce
    if combinedForce.length > 0.01 then combinedForce.normalize
    else seekForce

end MobEntity

namespace BasicShooterEnemy

/-- `std::numeric_limits<float>::max()`. -/
def floatMax : ℝ := 2 ^ 128 - 2 ^ 104

/-- The closest-PC scan of `BasicShooterEnemy::update` (lines 240-251):
linear scan keeping the first strict minimum, starting from float-max
distance. -/
def chooseClosest (party : List Entity) (pos : Vec3) : Option Entity × ℝ :=
  party.foldl
    (fun (acc : Option Entity × ℝ) pc =>
      if pc.active = true then
        let distance := (pc.position - pos).length
        if distance < acc.2 then (some pc, distance) else acc
      else acc)
    (none, floatMax)

/-- The AI decision phase of `BasicShooterEnemy::update` (lines 238-279):
pick nearest active party member; seek a steering step while farther than the
engagement distance `radius + target.radius + 1.0`, back away below 70% of
it, stop in between. -/
def aiDecision (party : List Entity) (others : List Entity) (e : Entity) (dt : ℝ) : Entity :=
  if party ≠ [] then
    match chooseClosest party e.position with
    | (some pc, closestDistance) =>
      let targetPos := pc.position
      let desiredDistance := e.radius + pc.radius + 1.0
      if closestDistance > desiredDistance then
        let avoidanceRadius := max 3.0 (e.movementSpeed * 0.8)
        let steeringDir := MobEntity.calculateSteeringForce others e targetPos avoidanceRadius
        MobEntity.moveTo e (e.position + (e.movementSpeed * dt) • steeringDir)
      else if closestDistance < desiredDistance * 0.7 then
        let awayDir := (e.position - targetPos).normalize
        MobEntity.moveTo e (e.position + (e.movementSpeed * 0.5 * dt) • awayDir)
      else
        MobEntity.stop e
    | (none, _) => e
  else e

/-- `BasicShooterEnemy::update`: AI decision phase, then the inherited
`MobEntity::update`. -/
def update (party : List Entity) (others : List Entity) (e : Entity) (dt : ℝ) : Entity :=
  MobEntity.update others (aiDecision party others e dt) dt

end BasicShooterEnemy

namespace EntityManager

/-- The registry entities other than index `i`: what the `other.get() == this`
test leaves of the neighbor scans. -/
def othersAt (w : List Entity) (i : ℕ) : List Entity := w.eraseIdx i

/-- Virtual dispatch of `Entity::update` as called from
`EntityManager::updateAll`: plain entities do nothing, mobs run
`MobEntity::update`, shooters run `BasicShooterEnemy::update` with their
party resolved against the current registry. -/
def updateEntity (w : List Entity) (i : ℕ) (e : Entity) (dt : ℝ) : Entity :=
  match e.kind with
  | .plain => e
  | .mob => MobEntity.update (othersAt w i) e dt
  | .shooter =>
      BasicShooterEnemy.update (e.party.filterMap fun j => w[j]?) (othersAt w i) e dt

/-- One iteration of the `EntityManager::updateAll` loop: update the entity at
index `i` in place if it exists and is active. -/
def updateStep (dt : ℝ) (w : List Entity) (i : ℕ) : List Entity :=
  match w[i]? with
  | some e => if e.active = true then w.set i (updateEntity w i e dt) else w
  | none => w

/-- `EntityManager::updateAll`: iterate the registry in order, updating each
active entity in place (later entities see the already-updated earlier
ones). -/
def updateAll (w : List Entity) (dt : ℝ) : List Entity :=
  (List.range w.length).foldl (updateStep dt) w

end EntityManager

/-- A call in the external mobile-entity / registry interface: one of
`update`, `updateAll`, `moveTo`, `stop` (`update`/`moveTo`/`stop` on the
registry entity at index `i`). -/
inductive Op
  | update (i : ℕ) (dt : ℝ)
  | updateAll (dt : ℝ)
  | moveTo (i : ℕ) (target : Vec3)
  | stop (i : ℕ)

/-- Apply one interface call to the registry. -/
def applyOp (w : List Entity) : Op → List Entity
  | .update i dt =>
      match w[i]? with
      | some e => w.set i (EntityManager.updateEntity w i e dt)
      | none => w
  | .updateAll dt => EntityManager.updateAll w dt
  | .moveTo i target =>
      match w[i]? with
      | some e => w.set i (MobEntity.moveTo e target)
      | none => w
  | .stop i =>
      match w[i]? with
      | some e => w.set i (MobEntity.stop e)
      | none => w

/-- Apply a sequence of interface calls to the registry. -/
def applyOps (w : List Entity) (ops : List Op) : List Entity :=
  ops.foldl applyOp w

namespace WaypointSearch

/-- Modelled from the spec: the waypoint-search planner of spec section 4.3
has no implementation under `src/` (no ring-sampling code exists in the
repository sources), so it is modelled here from the spec's words.  The ring
radii form a shrinking sequence: start at `r`, multiply by 0.7 each round,
stop once below the searcher's own radius `minR`. -/
def ringRadii (minR : ℝ) (r : ℝ) : List ℝ :=
  if h : 0 < minR ∧ minR ≤ r then
    r :: ringRadii minR (0.7 * r)
  else []
termination_by Nat.ceil (Real.logb (10 / 7) (r / minR) + 1)
decreasing_by
  have hm : 0 < minR := h.1
  have hr : 0 < r := lt_of_lt_of_le hm h.2
  have hq : (1 : ℝ) ≤ r / minR := (one_le_div hm).mpr h.2
  have ht : 0 ≤ Real.logb (10 / 7) (r / minR) :=
    Real.logb_nonneg (by norm_num) hq
  have hsplit : Real.logb (10 / 7) (0.7 * r / minR)
      = Real.logb (10 / 7) (7 / 10) + Real.logb (10 / 7) (r / minR) := by
    rw [mul_div_assoc, show (0.7 : ℝ) = 7 / 10 by norm_num]
    exact Real.logb_mul (by norm_num) (by positivity)
  have hbase : Real.logb (10 / 7) (7 / 10) = -1 := by
    rw [show (7 / 10 : ℝ) = (10 / 7)⁻¹ by norm_num, Real.logb_inv,
      Real.logb_self_eq_one (by norm_num)]
  rw [hsplit, hbase]
  have : -1 + Real.logb (10 / 7) (r / minR) + 1 = Real.logb (10 / 7) (r / minR) := by ring
  rw [this]
  calc Nat.ceil (Real.logb (10 / 7) (r / minR))
      < Nat.ceil (Real.logb (10 / 7) (r / minR)) + 1 := Nat.lt_succ_self _
    _ = Nat.ceil (Real.logb (10 / 7) (r / minR) + 1) := (Nat.ceil_add_one ht).symm

/-- Modelled from the spec: 16 candidate samples per ring, evenly spaced in
angle, projected to the ground plane. -/
def ringSamples (selfPos : Vec3) (r : ℝ) : List Vec3 :=
  (List.range 16).map fun (k : ℕ) =>
    selfPos +
      Vec3.mk (r * Real.cos (2 * Real.pi * (k : ℝ) / 16)) 0
        (r * Real.sin (2 * Real.pi * (k : ℝ) / 16))

/-- Modelled from the spec: a candidate is valid when its clearance to every
active mobile neighbor is at least half the searcher's own radius. -/
def validAt (self : Entity) (neighbors : List Entity) (s : Vec3) : Prop :=
  ∀ o ∈ neighbors, MobEntity.considered o →
    (s - o.position).length - (self.radius + o.radius) ≥ 0.5 * self.radius

/-- Modelled from the spec: while backward movement is not allowed, a sample
must make non-negative progress toward the target. -/
def forwardAt (self : Entity) (target : Vec3) (s : Vec3) : Prop :=
  (s - self.position).dot (target - self.position) ≥ 0

/-- Modelled from the spec: the acceptance test applied to a ring sample. -/
def accepted (self : Entity) (neighbors : List Entity) (target : Vec3)
    (allowBackward : Bool) (s : Vec3) : Prop :=
  validAt self neighbors s ∧ (allowBackward = true ∨ forwardAt self target s)

/-- Modelled from the spec: among the accepted samples, the one closest to
the target (first minimum wins). -/
def closestTo (target : Vec3) (l : List Vec3) : Option Vec3 :=
  l.foldl
    (fun acc s =>
      match acc with
      | none => some s
      | some b => if (target - s).length < (target - b).length then some s else some b)
    none

/-- Modelled from the spec: search a single ring.  -/
def searchRing (self : Entity) (neighbors : List Entity) (target : Vec3)
    (allowBackward : Bool) (r : ℝ) : Option Vec3 :=
  closestTo target
    ((ringSamples self.position r).filter fun s =>
      decide (accepted self neighbors target allowBackward s))

/-- Modelled from the spec: search the shrinking rings in order; the first
ring with an accepted sample wins. -/
def searchRings (self : Entity) (neighbors : List Entity) (target : Vec3)
    (allowBackward : Bool) : List ℝ → Option Vec3
  | [] => none
  | r :: rs =>
      match searchRing self neighbors target allowBackward r with
      | some w => some w
      | none => searchRings self neighbors target allowBackward rs

/-- Modelled from the spec: the full waypoint search — forward pass over the
shrinking rings, then a backward-allowed pass from the original radius, then
the fallback of one radius-length step straight toward the target. -/
def findWaypoint (startRadius : ℝ) (self : Entity) (neighbors : List Entity)
    (target : Vec3) : Vec3 :=
  let radii := ringRadii self.radius startRadius
  match searchRings self neighbors target false radii with
  | some w => w
  | none =>
      match searchRings self neighbors target true radii with
      | some w => w
      | none => self.position + self.radius • (target - self.position).normalize

end WaypointSearch

/-! ## Helper lemmas -/

namespace MobEntity

theorem resolveCollisions_of_no_collides (others : List Entity) (e : Entity) (d : Vec3)
    (h : ∀ o ∈ others, ¬ collides e d o) :
    resolveCollisions others e d = d := by
  unfold resolveCollisions
  have hnil : (others.filter fun o => decide (collides e d o)) = [] := by
    rw [List.filter_eq_nil_iff]
    intro a ha
    simpa using h a ha
  rw [hnil]
  rfl

theorem sepScan_eq (e : Entity) (l : List Entity) (v : Vec3) (n : ℕ) :
    l.foldl
      (fun (acc : Vec3 × ℕ) o =>
        if sepQualifies e o then (acc.1 + sepContribution e o, acc.2 + 1) else acc)
      (v, n)
    = (v + Vec3.vsum ((l.filter fun o => decide (sepQualifies e o)).map (sepContribution e)),
       n + (l.filter fun o => decide (sepQualifies e o)).length) := by
  induction l generalizing v n with
  | nil => simp
  | cons a l ih =>
    by_cases h : sepQualifies e a
    · simp only [List.foldl_cons, if_pos h, List.filter_cons, decide_eq_true_eq, h,
        if_true, List.map_cons, List.length_cons]
      rw [ih, Vec3.vsum_cons]
      refine Prod.ext ?_ ?_
      · show v + sepContribution e a + _ = v + (sepContribution e a + _)
        ext <;> simp <;> ring
      · show n + 1 + _ = n + (_ + 1)
        omega
    · simp only [List.foldl_cons, if_neg h, List.filter_cons, decide_eq_true_eq, h,
        if_false]
      exact ih v n

theorem applySeparationForces_eq (others : List Entity) (e : Entity) (dt : ℝ) :
    applySeparationForces others e dt =
      (if (others.filter fun o => decide (sepQualifies e o)).length = 0 then e
       else { e with position := e.position + (2.0 * dt) •
         ((1 / (((others.filter fun o => decide (sepQualifies e o)).length : ℕ) : ℝ)) •
           Vec3.vsum ((others.filter fun o => decide (sepQualifies e o)).map
             (sepContribution e))) }) := by
  unfold applySeparationForces
  rw [sepScan_eq]
  simp only [Vec3.zero_add', Nat.zero_add]
  by_cases h : (others.filter fun o => decide (sepQualifies e o)).length = 0
  · rw [if_pos h]
    have : ¬ (others.filter fun o => decide (sepQualifies e o)).length > 0 := by omega
    rw [if_neg this]
  · rw [if_neg h]
    have : (others.filter fun o => decide (sepQualifies e o)).length > 0 := by omega
    rw [if_pos this]

theorem applySeparationForces_of_none (others : List Entity) (e : Entity) (dt : ℝ)
    (h : ∀ o ∈ others, ¬ sepQualifies e o) :
    applySeparationForces others e dt = e := by
  rw [applySeparationForces_eq]
  have hnil : (others.filter fun o => decide (sepQualifies e o)) = [] := by
    rw [List.filter_eq_nil_iff]
    intro a ha
    simpa using h a ha
  rw [hnil]
  simp

theorem moveStep_of_not_moving (others : List Entity) (e : Entity) (dt : ℝ)
    (h : e.isMoving = false) :
    moveStep others e dt = e := by
  unfold moveStep
  rw [h]
  simp

theorem update_of_not_moving (others : List Entity) (e : Entity) (dt : ℝ)
    (h : e.isMoving = false) (hsep : ∀ o ∈ others, ¬ sepQualifies e o) :
    update others e dt = e := by
  unfold update
  rw [moveStep_of_not_moving others e dt h,
    applySeparationForces_of_none others e dt hsep]

theorem moveStep_shape (others : List Entity) (e : Entity) (dt : ℝ) :
    ∃ p m, moveStep others e dt = { e with position := p, isMoving := m } := by
  unfold moveStep
  dsimp only
  repeat' split
  all_goals exact ⟨_, _, rfl⟩

theorem applySeparationForces_shape (others : List Entity) (e : Entity) (dt : ℝ) :
    ∃ p, applySeparationForces others e dt = { e with position := p } := by
  unfold applySeparationForces
  dsimp only
  repeat' split
  all_goals exact ⟨_, rfl⟩

theorem update_shape (others : List Entity) (e : Entity) (dt : ℝ) :
    ∃ p m, update others e dt = { e with position := p, isMoving := m } := by
  unfold update
  obtain ⟨p, m, hm⟩ := moveStep_shape others e dt
  obtain ⟨q, hq⟩ := applySeparationForces_shape others (moveStep others e dt) dt
  rw [hq, hm]
  exact ⟨q, m, rfl⟩

end MobEntity

namespace BasicShooterEnemy

theorem chooseClosest_singleton (p : Entity) (pos : Vec3)
    (hp : p.active = true) (hd : (p.position - pos).length < floatMax) :
    chooseClosest [p] pos = (some p, (p.position - pos).length) := by
  unfold chooseClosest
  simp only [List.foldl_cons, List.foldl_nil, hp, if_true]
  rw [if_pos hd]

theorem aiDecision_shape (party others : List Entity) (e : Entity) (dt : ℝ) :
    ∃ t m, aiDecision party others e dt = { e with targetPosition := t, isMoving := m } := by
  unfold aiDecision
  dsimp only
  repeat' split
  all_goals exact ⟨_, _, rfl⟩

theorem update_shape' (party others : List Entity) (e : Entity) (dt : ℝ) :
    ∃ p t m, update party others e dt =
      { e with position := p, targetPosition := t, isMoving := m } := by
  unfold update
  obtain ⟨t, m, hm⟩ := aiDecision_shape party others e dt
  obtain ⟨p, m', hu⟩ := MobEntity.update_shape others (aiDecision party others e dt) dt
  rw [hu, hm]
  exact ⟨p, t, m', rfl⟩

end BasicShooterEnemy

theorem getElem?_of_set {α : Type} (l : List α) (i : ℕ) (a : α) (h : l[i]? = some a) :
    l.set i a = l := by
  induction l generalizing i with
  | nil => simp at h
  | cons b l ih =>
    cases i with
    | zero =>
        simp only [List.getElem?_cons_zero, Option.some.injEq] at h
        simp [h]
    | succ n =>
        simp only [List.getElem?_cons_succ] at h
        simp [List.set_cons_succ, ih n h]

namespace EntityManager

theorem updateEntity_shape (w : List Entity) (i : ℕ) (e : Entity) (dt : ℝ) :
    ∃ p t m, updateEntity w i e dt =
      { e with position := p, targetPosition := t, isMoving := m } := by
  unfold updateEntity
  split
  · exact ⟨e.position, e.targetPosition, e.isMoving, rfl⟩
  · obtain ⟨p, m, hm⟩ := MobEntity.update_shape (othersAt w i) e dt
    exact ⟨p, e.targetPosition, m, by rw [hm]⟩
  · obtain ⟨p, t, m, hm⟩ := BasicShooterEnemy.update_shape'
      (e.party.filterMap fun j => w[j]?) (othersAt w i) e dt
    exact ⟨p, t, m, by rw [hm]⟩

theorem updateEntity_radius (w : List Entity) (i : ℕ) (e : Entity) (dt : ℝ) :
    (updateEntity w i e dt).radius = e.radius := by
  obtain ⟨p, t, m, h⟩ := updateEntity_shape w i e dt
  rw [h]

theorem map_radius_set_updateEntity (w w' : List Entity) (i : ℕ) (e : Entity) (dt : ℝ)
    (h : w'[i]? = some e) (hw : w'.map Entity.radius = w.map Entity.radius) :
    (w'.set i (updateEntity w' i e dt)).map Entity.radius = w.map Entity.radius := by
  rw [List.map_set, updateEntity_radius]
  have h2 : (w'.map Entity.radius)[i]? = some e.radius := by
    rw [List.getElem?_map, h]
    rfl
  rw [getElem?_of_set _ _ _ h2, hw]

theorem updateAll_map_radius (w : List Entity) (dt : ℝ) :
    (updateAll w dt).map Entity.radius = w.map Entity.radius := by
  unfold updateAll
  generalize List.range w.length = is
  induction is generalizing w with
  | nil => rfl
  | cons i is ih =>
    simp only [List.foldl_cons]
    have hpres : (updateStep dt w i).map Entity.radius = w.map Entity.radius := by
      unfold updateStep
      split
      · split
        · exact map_radius_set_updateEntity w w i _ dt (by assumption) rfl
        · rfl
      · rfl
    calc (List.foldl (updateStep dt) (updateStep dt w i) is).map Entity.radius
        = (updateStep dt w i).map Entity.radius := ih (updateStep dt w i)
      _ = w.map Entity.radius := hpres

theorem applyOp_map_radius (w : List Entity) (op : Op) :
    (applyOp w op).map Entity.radius = w.map Entity.radius := by
  cases op with
  | update i dt =>
      simp only [applyOp]
      split
      · rename_i e he
        exact map_radius_set_updateEntity w w i e dt he rfl
      · rfl
  | updateAll dt => exact updateAll_map_radius w dt
  | moveTo i target =>
      simp only [applyOp]
      split
      · rename_i e he
        rw [List.map_set]
        have h2 : (w.map Entity.radius)[i]? = some e.radius := by
          rw [List.getElem?_map, he]
          rfl
        have h3 : (MobEntity.moveTo e target).radius = e.radius := rfl
        rw [h3, getElem?_of_set _ _ _ h2]
      · rfl
  | stop i =>
      simp only [applyOp]
      split
      · rename_i e he
        rw [List.map_set]
        have h2 : (w.map Entity.radius)[i]? = some e.radius := by
          rw [List.getElem?_map, he]
          rfl
        have h3 : (MobEntity.stop e).radius = e.radius := rfl
        rw [h3, getElem?_of_set _ _ _ h2]
      · rfl

theorem applyOps_map_radius (w : List Entity) (ops : List Op) :
    (applyOps w ops).map Entity.radius = w.map Entity.radius := by
  induction ops generalizing w with
  | nil => rfl
  | cons op ops ih =>
    unfold applyOps
    simp only [List.foldl_cons]
    calc (List.foldl applyOp (applyOp w op) ops).map Entity.radius
        = (applyOp w op).map Entity.radius := ih (applyOp w op)
      _ = w.map Entity.radius := applyOp_map_radius w op

end EntityManager

/-- A default-constructed mobile entity at a given position and radius
(`MobEntity` field defaults of `entity.h`: speed 5, not moving, active). -/
def mkMob (pos : Vec3) (r : ℝ) : Entity :=
  { position := pos, active := true, movementSpeed := 5, radius := r,
    targetPosition := 0, isMoving := false, kind := .mob, party := [] }

namespace EntityManager

theorem updateStep_some (dt : ℝ) (w : List Entity) (i : ℕ) (e : Entity)
    (he : w[i]? = some e) (ha : e.active = true) :
    updateStep dt w i = w.set i (updateEntity w i e dt) := by
  unfold updateStep
  rw [he]
  dsimp only
  rw [if_pos ha]

theorem updateAll_pair (a b : Entity) (dt : ℝ)
    (ha : a.active = true) (hb : b.active = true)
    (hA : updateEntity [a, b] 0 a dt = a)
    (hB : updateEntity [a, b] 1 b dt = b) :
    updateAll [a, b] dt = [a, b] := by
  unfold updateAll
  have hr : List.range ([a, b] : List Entity).length = [0, 1] := rfl
  rw [hr]
  simp only [List.foldl_cons, List.foldl_nil]
  rw [updateStep_some dt [a, b] 0 a rfl ha, hA]
  have hset0 : ([a, b] : List Entity).set 0 a = [a, b] := rfl
  rw [hset0, updateStep_some dt [a, b] 1 b rfl hb, hB]
  rfl

end EntityManager

/-! ## The claims -/

/-- **C9** — Radius invariance: every sequence of `update` / `updateAll` /
`moveTo` / `stop` calls leaves every registry entity's `radius` field
untouched, so `radius > 0` established at construction still holds
afterwards. -/
theorem radius_invariant_applyOps (ops : List Op) (w : List Entity)
    (hpos : ∀ e ∈ w, 0 < e.radius) :
    (applyOps w ops).map Entity.radius = w.map Entity.radius ∧
      ∀ e ∈ applyOps w ops, 0 < e.radius := by
  refine ⟨EntityManager.applyOps_map_radius w ops, ?_⟩
  intro e he
  have h1 : e.radius ∈ (applyOps w ops).map Entity.radius :=
    List.mem_map_of_mem _ he
  rw [EntityManager.applyOps_map_radius] at h1
  obtain ⟨e', he', hr⟩ := List.mem_map.mp h1
  rw [← hr]
  exact hpos e' he'

/-- Witness for C9 at a concrete one-entity registry and one `stop` call. -/
theorem radius_invariant_applyOps_witness :
    (applyOps [mkMob 0 (1/2)] [Op.stop 0]).map Entity.radius = [(1/2 : ℝ)] := by
  rw [(radius_invariant_applyOps [Op.stop 0] [mkMob 0 (1/2)]
    (by
      intro e he
      simp only [List.mem_singleton] at he
      subst he
      norm_num [mkMob])).1]
  rfl

/-- **C8 (amended)** — `stop` is idempotent (`stop ∘ stop = stop`, leaving
`isMoving = false`), and the position is unchanged by the next `update`
*provided no active mobile neighbor is within separation range* (the
unconditional claim fails because `update` always applies separation
forces; see the counterexample). -/
theorem stop_stop_update (e : Entity) (others : List Entity) (dt : ℝ)
    (h : ∀ o ∈ others, ¬ MobEntity.sepQualifies (MobEntity.stop e) o) :
    MobEntity.stop (MobEntity.stop e) = MobEntity.stop e ∧
      (MobEntity.update others (MobEntity.stop e) dt).position = e.position ∧
      (MobEntity.update others (MobEntity.stop e) dt).isMoving = false := by
  refine ⟨rfl, ?_, ?_⟩
  · rw [MobEntity.update_of_not_moving others _ dt rfl h]
    rfl
  · rw [MobEntity.update_of_not_moving others _ dt rfl h]
    rfl

/-- Witness for C8 (amended): empty registry, one entity, dt = 1. -/
theorem stop_stop_update_witness :
    MobEntity.stop (MobEntity.stop { mkMob 0 (1/2) with isMoving := true }) =
        MobEntity.stop { mkMob 0 (1/2) with isMoving := true } ∧
      (MobEntity.update [] (MobEntity.stop { mkMob 0 (1/2) with isMoving := true }) 1).position =
        ({ mkMob 0 (1/2) with isMoving := true } : Entity).position ∧
      (MobEntity.update [] (MobEntity.stop { mkMob 0 (1/2) with isMoving := true }) 1).isMoving =
        false :=
  stop_stop_update { mkMob 0 (1/2) with isMoving := true } [] 1
    (by intro o ho; simp at ho)

/-- **C8 (counterexample)** — with a neighbor one unit away (radii 0.5,
separation range 1.2), an entity that was stopped twice still moves on the
next `update`: the continuous separation force pushes it away, so the claim
"position unchanged by the next update" is false as stated. -/
theorem stop_twice_neighbor_moves :
    (MobEntity.update [mkMob ⟨1, 0, 0⟩ (1/2)]
        (MobEntity.stop (MobEntity.stop { mkMob 0 (1/2) with isMoving := true })) 1).position
      ≠ ({ mkMob 0 (1/2) with isMoving := true } : Entity).position := by
  have hsub : (mkMob (0 : Vec3) (1/2)).position - (mkMob ⟨1, 0, 0⟩ (1/2)).position
      = (⟨-1, 0, 0⟩ : Vec3) := by
    show (0 : Vec3) - ⟨1, 0, 0⟩ = ⟨-1, 0, 0⟩
    ext <;> norm_num
  have hlen : ((mkMob (0 : Vec3) (1/2)).position - (mkMob ⟨1, 0, 0⟩ (1/2)).position).length
      = 1 := by
    rw [hsub, Vec3.length_mk_x]
    norm_num
  have hq : MobEntity.sepQualifies (mkMob 0 (1/2)) (mkMob ⟨1, 0, 0⟩ (1/2)) := by
    refine ⟨⟨rfl, rfl⟩, ?_, ?_⟩
    · rw [hlen]
      norm_num [mkMob]
    · rw [hlen]
      norm_num
  show (MobEntity.update [mkMob ⟨1, 0, 0⟩ (1/2)] (mkMob 0 (1/2)) 1).position ≠ (0 : Vec3)
  unfold MobEntity.update
  rw [MobEntity.moveStep_of_not_moving _ _ _ rfl, MobEntity.applySeparationForces_eq]
  have hfil : (([mkMob ⟨1, 0, 0⟩ (1/2)] : List Entity).filter
      fun x => decide (MobEntity.sepQualifies (mkMob 0 (1/2)) x)) = [mkMob ⟨1, 0, 0⟩ (1/2)] := by
    simp only [List.filter_cons, List.filter_nil, decide_eq_true_eq]
    rw [if_pos hq]
  rw [hfil]
  rw [if_neg (by norm_num : ¬ ([mkMob ⟨1, 0, 0⟩ (1/2)] : List Entity).length = 0)]
  intro hcontra
  have hx := congrArg Vec3.x hcontra
  simp only [List.map_cons, List.map_nil, Vec3.vsum_cons, Vec3.vsum_nil,
    MobEntity.sepContribution, hsub, hlen] at hx
  norm_num [mkMob, Vec3.length_mk_x] at hx

/-- **C2 (amended)** — when an entity's centers coincide with all its
neighbors (distance at or below the 0.001 epsilon), the neighbor scan skips
them entirely: no fallback push direction exists, no separation force is
applied, and a non-seeking entity does not move at all. -/
theorem coincident_neighbors_no_push (e : Entity) (others : List Entity) (dt : ℝ)
    (hm : e.isMoving = false)
    (h : ∀ o ∈ others, (e.position - o.position).length ≤ 0.001) :
    MobEntity.update others e dt = e := by
  apply MobEntity.update_of_not_moving others e dt hm
  intro o ho hq
  exact absurd hq.2.2 (not_lt.mpr (h o ho))

/-- Witness for C2 (amended): two exactly coincident radius-1 entities. -/
theorem coincident_neighbors_no_push_witness :
    MobEntity.update [mkMob 0 1] (mkMob 0 1) 1 = mkMob 0 1 :=
  coincident_neighbors_no_push (mkMob 0 1) [mkMob 0 1] 1 rfl
    (by
      intro o ho
      simp only [List.mem_singleton] at ho
      subst ho
      rw [Vec3.sub_self', Vec3.length_zero]
      norm_num)

/-- **C2 (counterexample)** — two active radius-1 mobile entities at exactly
the same position do *not* move apart: one `updateAll` pass leaves the
registry unchanged, so their distance stays 0 instead of strictly
increasing; there is no fallback push direction in the code (the
`distance > 0.001` guards simply skip coincident neighbors). -/
theorem coincident_pair_stays :
    EntityManager.updateAll [mkMob 0 1, mkMob 0 1] 1 = [mkMob 0 1, mkMob 0 1] ∧
      ((mkMob 0 1).position - (mkMob 0 1).position).length = 0 := by
  have key : MobEntity.update [mkMob 0 1] (mkMob 0 1) 1 = mkMob 0 1 := by
    apply MobEntity.update_of_not_moving _ _ _ rfl
    intro o ho hq
    simp only [List.mem_singleton] at ho
    subst ho
    have h3 := hq.2.2
    rw [Vec3.sub_self', Vec3.length_zero] at h3
    norm_num at h3
  constructor
  · apply EntityManager.updateAll_pair (mkMob 0 1) (mkMob 0 1) 1 rfl rfl
    · exact key
    · exact key
  · rw [Vec3.sub_self', Vec3.length_zero]

@[simp] theorem mkMob_position (p : Vec3) (r : ℝ) : (mkMob p r).position = p := rfl
@[simp] theorem mkMob_radius (p : Vec3) (r : ℝ) : (mkMob p r).radius = r := rfl
@[simp] theorem mkMob_active (p : Vec3) (r : ℝ) : (mkMob p r).active = true := rfl
@[simp] theorem mkMob_speed (p : Vec3) (r : ℝ) : (mkMob p r).movementSpeed = 5 := rfl
@[simp] theorem mkMob_isMoving (p : Vec3) (r : ℝ) : (mkMob p r).isMoving = false := rfl
@[simp] theorem mkMob_target (p : Vec3) (r : ℝ) : (mkMob p r).targetPosition = 0 := rfl
@[simp] theorem mkMob_mobile (p : Vec3) (r : ℝ) : (mkMob p r).mobile = true := rfl

/-- **C3 (counterexample)** — `resolveCollisions` does *not* stop after the
first conflicting neighbor: with the mover at the origin (radius 0.5) seeking
desired position (1,0,0), neighbor 1 at (1.5,0,0) and neighbor 2 at
(0.5,0,0), the first neighbor's correction alone gives (0,0,0), but the full
scan also applies the second neighbor's correction and returns (-0.5,0,0). -/
theorem resolveCollisions_two_corrections :
    MobEntity.resolveCollisions [mkMob ⟨3/2, 0, 0⟩ (1/2), mkMob ⟨1/2, 0, 0⟩ (1/2)]
        (mkMob 0 (1/2)) ⟨1, 0, 0⟩
      ≠ MobEntity.resolveCollisions [mkMob ⟨3/2, 0, 0⟩ (1/2)] (mkMob 0 (1/2)) ⟨1, 0, 0⟩ := by
  have h1 : MobEntity.resolveCollisions [mkMob ⟨3/2, 0, 0⟩ (1/2)]
      (mkMob 0 (1/2)) ⟨1, 0, 0⟩ = (0 : Vec3) := by
    unfold MobEntity.resolveCollisions MobEntity.slideStep
    norm_num [MobEntity.collides, MobEntity.considered, Vec3.length_mk_x, Vec3.dot,
      Vec3.normalize, abs_of_nonneg, List.filter_cons]
  have h2 : MobEntity.resolveCollisions [mkMob ⟨3/2, 0, 0⟩ (1/2), mkMob ⟨1/2, 0, 0⟩ (1/2)]
      (mkMob 0 (1/2)) ⟨1, 0, 0⟩ = (⟨-(1/2), 0, 0⟩ : Vec3) := by
    unfold MobEntity.resolveCollisions MobEntity.slideStep
    norm_num [MobEntity.collides, MobEntity.considered, Vec3.length_mk_x, Vec3.dot,
      Vec3.normalize, abs_of_nonneg, List.filter_cons]
  rw [h1, h2]
  intro hcontra
  have hx := congrArg Vec3.x hcontra
  norm_num at hx

/-- **C3 (amended)** — the collision-resolution scan processes *every*
collected conflicting neighbor in registry iteration order (there is no
break after the first match): appending a neighbor to the registry applies
its correction on top of the result for the preceding neighbors. -/
theorem resolveCollisions_processes_last (others : List Entity) (o : Entity)
    (e : Entity) (d : Vec3) :
    MobEntity.resolveCollisions (others ++ [o]) e d =
      (if MobEntity.collides e d o then
        MobEntity.slideStep e (d - e.position) (MobEntity.resolveCollisions others e d) o
       else MobEntity.resolveCollisions others e d) := by
  unfold MobEntity.resolveCollisions
  rw [List.filter_append, List.foldl_append]
  by_cases h : MobEntity.collides e d o
  · rw [if_pos h]
    have hf : (([o] : List Entity).filter fun x => decide (MobEntity.collides e d x)) = [o] := by
      simp only [List.filter_cons, List.filter_nil, decide_eq_true_eq]
      rw [if_pos h]
    rw [hf]
    rfl
  · rw [if_neg h]
    have hf : (([o] : List Entity).filter fun x => decide (MobEntity.collides e d x)) = [] := by
      simp only [List.filter_cons, List.filter_nil, decide_eq_true_eq]
      rw [if_neg h]
    rw [hf]
    rfl

/-- **C7** — on every `update` call, seeking or not, the position is
additionally nudged after the movement phase by the average of the
qualifying neighbors' weighted push-away vectors times the separation speed
2.0 times dt, and by zero when no neighbor qualifies (closer than
1.2 x (sum of radii) and beyond the 0.001 epsilon). -/
theorem update_separation_nudge (others : List Entity) (e : Entity) (dt : ℝ) :
    (MobEntity.update others e dt).position =
      (if (others.filter fun o =>
            decide (MobEntity.sepQualifies (MobEntity.moveStep others e dt) o)).length = 0
       then (MobEntity.moveStep others e dt).position
       else (MobEntity.moveStep others e dt).position + (2.0 * dt) •
         ((1 / (((others.filter fun o =>
               decide (MobEntity.sepQualifies (MobEntity.moveStep others e dt) o)).length : ℕ) : ℝ)) •
           Vec3.vsum ((others.filter fun o =>
               decide (MobEntity.sepQualifies (MobEntity.moveStep others e dt) o)).map
             (MobEntity.sepContribution (MobEntity.moveStep others e dt))))) := by
  unfold MobEntity.update
  rw [MobEntity.applySeparationForces_eq]
  by_cases h : (others.filter fun o =>
      decide (MobEntity.sepQualifies (MobEntity.moveStep others e dt) o)).length = 0
  · rw [if_pos h, if_pos h]
  · rw [if_neg h, if_neg h]

theorem length_pos_of_gt {v : Vec3} {c : ℝ} (hc : 0 < c) (h : v.length > c) : v ≠ 0 := by
  intro hv
  rw [hv, Vec3.length_zero] at h
  exact absurd (lt_trans hc h) (lt_irrefl 0)

/-- **C6** — slide-with-friction: for an overlapping neighbor (distance from
the desired position below the sum of radii and above the 0.001 epsilon) the
resolved position is the current position plus the movement vector projected
onto the collision tangent plane scaled by friction 0.7; if that slid
position still penetrates, it is hard-clamped so the center distance equals
exactly the sum of radii; and two overlapping neighbors are processed by
successive corrections in registry iteration order. -/
theorem slide_with_friction (e o : Entity) (desired : Vec3)
    (h1 : MobEntity.considered o)
    (h2 : (o.position - desired).length < e.radius + o.radius)
    (h3 : (o.position - desired).length > 0.001)
    (hr : 0 < e.radius + o.radius) :
    (let movement := desired - e.position
     let toOther := o.position - desired
     let collisionNormal := (-(1 / toOther.length)) • toOther
     let slid := e.position +
       (0.7 : ℝ) • (movement - (movement.dot collisionNormal) • collisionNormal)
     (MobEntity.resolveCollisions [o] e desired =
        (if (o.position - slid).length < e.radius + o.radius ∧
            (o.position - slid).length > 0.001 then
          o.position - (e.radius + o.radius) • (o.position - slid).normalize
        else slid)) ∧
     (((o.position - slid).length < e.radius + o.radius ∧
         (o.position - slid).length > 0.001) →
       (o.position - MobEntity.resolveCollisions [o] e desired).length =
         e.radius + o.radius)) ∧
    (∀ o1 o2 : Entity, MobEntity.collides e desired o1 → MobEntity.collides e desired o2 →
      MobEntity.resolveCollisions [o1, o2] e desired =
        MobEntity.slideStep e (desired - e.position)
          (MobEntity.slideStep e (desired - e.position) desired o1) o2) := by
  dsimp only
  have hsingle : MobEntity.resolveCollisions [o] e desired =
      MobEntity.slideStep e (desired - e.position) desired o := by
    unfold MobEntity.resolveCollisions
    have hf : (([o] : List Entity).filter fun x => decide (MobEntity.collides e desired x))
        = [o] := by
      simp only [List.filter_cons, List.filter_nil, decide_eq_true_eq]
      rw [if_pos ⟨h1, h2⟩]
    rw [hf]
    rfl
  have hstep : MobEntity.slideStep e (desired - e.position) desired o =
      (if (o.position - (e.position + (0.7 : ℝ) •
            ((desired - e.position) -
              ((desired - e.position).dot ((-(1 / (o.position - desired).length)) •
                (o.position - desired))) •
              ((-(1 / (o.position - desired).length)) • (o.position - desired))))).length <
            e.radius + o.radius ∧
          (o.position - (e.position + (0.7 : ℝ) •
            ((desired - e.position) -
              ((desired - e.position).dot ((-(1 / (o.position - desired).length)) •
                (o.position - desired))) •
              ((-(1 / (o.position - desired).length)) • (o.position - desired))))).length >
            0.001 then
        o.position - (e.radius + o.radius) •
          (o.position - (e.position + (0.7 : ℝ) •
            ((desired - e.position) -
              ((desired - e.position).dot ((-(1 / (o.position - desired).length)) •
                (o.position - desired))) •
              ((-(1 / (o.position - desired).length)) • (o.position - desired))))).normalize
      else
        e.position + (0.7 : ℝ) •
          ((desired - e.position) -
            ((desired - e.position).dot ((-(1 / (o.position - desired).length)) •
              (o.position - desired))) •
            ((-(1 / (o.position - desired).length)) • (o.position - desired)))) := by
    unfold MobEntity.slideStep
    dsimp only
    rw [if_pos ⟨h2, h3⟩]
  refine ⟨⟨?_, ?_⟩, ?_⟩
  · rw [hsingle, hstep]
  · intro hpen
    rw [hsingle, hstep, if_pos hpen]
    have hsub : o.position - (o.position - (e.radius + o.radius) •
        (o.position - (e.position + (0.7 : ℝ) •
          ((desired - e.position) -
            ((desired - e.position).dot ((-(1 / (o.position - desired).length)) •
              (o.position - desired))) •
            ((-(1 / (o.position - desired).length)) • (o.position - desired))))).normalize) =
        (e.radius + o.radius) •
        (o.position - (e.position + (0.7 : ℝ) •
          ((desired - e.position) -
            ((desired - e.position).dot ((-(1 / (o.position - desired).length)) •
              (o.position - desired))) •
            ((-(1 / (o.position - desired).length)) • (o.position - desired))))).normalize := by
      ext <;> simp
    rw [hsub, Vec3.length_smul, Vec3.length_normalize (length_pos_of_gt (by norm_num) hpen.2),
      abs_of_pos hr, mul_one]
  · intro o1 o2 hc1 hc2
    unfold MobEntity.resolveCollisions
    have hf : (([o1, o2] : List Entity).filter fun x => decide (MobEntity.collides e desired x))
        = [o1, o2] := by
      simp only [List.filter_cons, List.filter_nil, decide_eq_true_eq]
      rw [if_pos hc1, if_pos hc2]
    rw [hf]
    rfl

/-- Witness for C6: mover at the origin, neighbor at (0.5,0,0), desired
position (1,0,0); the slide degenerates and the hard clamp lands the mover
exactly touching the neighbor. -/
theorem slide_with_friction_witness :
    ((mkMob ⟨1/2, 0, 0⟩ (1/2)).position -
        MobEntity.resolveCollisions [mkMob ⟨1/2, 0, 0⟩ (1/2)] (mkMob 0 (1/2)) ⟨1, 0, 0⟩).length
      = (mkMob 0 (1/2)).radius + (mkMob (⟨1/2, 0, 0⟩ : Vec3) (1/2)).radius := by
  have h := slide_with_friction (mkMob 0 (1/2)) (mkMob ⟨1/2, 0, 0⟩ (1/2)) ⟨1, 0, 0⟩
    ⟨rfl, rfl⟩
    (by norm_num [Vec3.length_mk_x, abs_neg, abs_of_nonneg])
    (by norm_num [Vec3.length_mk_x, abs_neg, abs_of_nonneg])
    (by norm_num)
  exact h.1.2
    (by constructor <;>
      norm_num [Vec3.length_mk_x, Vec3.dot, Vec3.normalize, abs_neg, abs_of_nonneg])

/-- **C10** — `calculateSteeringForce` returns the zero vector when the
entity is within 0.01 of the target, and otherwise a vector of length
exactly 1 (the normalized combined force, or the normalized seek direction
when the combined force is near zero). -/
theorem calculateSteeringForce_unit (others : List Entity) (e : Entity)
    (targetPos : Vec3) (avoidanceRadius : ℝ) :
    ((targetPos - e.position).length < 0.01 →
      MobEntity.calculateSteeringForce others e targetPos avoidanceRadius = 0) ∧
    (¬ (targetPos - e.position).length < 0.01 →
      (MobEntity.calculateSteeringForce others e targetPos avoidanceRadius).length = 1) := by
  constructor
  · intro h
    unfold MobEntity.calculateSteeringForce
    rw [if_pos h]
  · intro h
    unfold MobEntity.calculateSteeringForce
    rw [if_neg h]
    dsimp only
    have hne : (targetPos - e.position) ≠ 0 :=
      length_pos_of_gt (by norm_num : (0:ℝ) < 0.005)
        (lt_of_lt_of_le (by norm_num) (not_lt.mp h))
    have hseek : (targetPos - e.position).normalize.length = 1 := Vec3.length_normalize hne
    have key : ∀ cf : Vec3,
        (if cf.length > 0.01 then cf.normalize else (targetPos - e.position).normalize).length
          = 1 := by
      intro cf
      by_cases hcf : cf.length > 0.01
      · rw [if_pos hcf]
        exact Vec3.length_normalize (length_pos_of_gt (by norm_num) hcf)
      · rw [if_neg hcf]
        exact hseek
    exact key _

/-- Witness for C10: no obstacles, target five units along the x-axis. -/
theorem calculateSteeringForce_unit_witness :
    (MobEntity.calculateSteeringForce [] (mkMob 0 (1/2)) ⟨5, 0, 0⟩ 3).length = 1 :=
  (calculateSteeringForce_unit [] (mkMob 0 (1/2)) ⟨5, 0, 0⟩ 3).2
    (by norm_num [Vec3.length_mk_x, abs_of_nonneg])

namespace MobEntity

theorem update_of_inert_arrived (others : List Entity) (e : Entity) (dt : ℝ)
    (hothers : ∀ o ∈ others, ¬ considered o) (hm : e.isMoving = false) :
    update others e dt = e :=
  update_of_not_moving others e dt hm (fun o ho hq => hothers o ho hq.1)

theorem arrived_fold (others : List Entity) (dts : List ℝ) (e : Entity)
    (hothers : ∀ o ∈ others, ¬ considered o) (hm : e.isMoving = false) :
    dts.foldl (fun s t => update others s t) e = e := by
  induction dts with
  | nil => rfl
  | cons t ts ih =>
    simp only [List.foldl_cons]
    rw [update_of_inert_arrived others e t hothers hm]
    exact ih

theorem update_arrives_if_close (others : List Entity) (e : Entity) (dt : ℝ)
    (hothers : ∀ o ∈ others, ¬ considered o) (hm : e.isMoving = true)
    (hclose : (e.targetPosition - e.position).length ≤ 0.1) :
    update others e dt = { e with position := e.targetPosition, isMoving := false } := by
  unfold update moveStep
  rw [hm]
  simp only [if_true]
  rw [if_neg (not_lt.mpr hclose)]
  exact applySeparationForces_of_none _ _ _ (fun o ho hq => hothers o ho hq.1)

theorem seek_step (others : List Entity) (e : Entity) (dt : ℝ) (u : Vec3) (r : ℝ)
    (hothers : ∀ o ∈ others, ¬ considered o)
    (hu : u.length = 1) (hr : 0 < r)
    (hpos : e.position = e.targetPosition - r • u)
    (hm : e.isMoving = true) :
    update others e dt =
      (if r ≤ 0.1 then { e with position := e.targetPosition, isMoving := false }
       else if e.movementSpeed * dt ≥ r then
         { e with position := e.targetPosition, isMoving := false }
       else if r - e.movementSpeed * dt < 0.1 then
         { e with position := e.targetPosition, isMoving := false }
       else { e with
              position := e.targetPosition - (r - e.movementSpeed * dt) • u,
              isMoving := true }) := by
  have hinert : ∀ (s : Entity) (dp : Vec3), resolveCollisions others s dp = dp :=
    fun s dp => resolveCollisions_of_no_collides others s dp
      (fun o ho hc => hothers o ho hc.1)
  have hdir : e.targetPosition - e.position = r • u := by
    rw [hpos]
    ext <;> simp
  have hlen : (r • u).length = r := by
    rw [Vec3.length_smul, hu, abs_of_pos hr, mul_one]
  unfold update moveStep
  rw [hm]
  simp only [if_true]
  rw [hdir, hlen]
  by_cases h01 : r ≤ 0.1
  · rw [if_neg (not_lt.mpr h01), if_pos h01]
    exact applySeparationForces_of_none _ _ _ (fun o ho hq => hothers o ho hq.1)
  · rw [if_pos (lt_of_not_le h01), if_neg h01]
    rw [Vec3.normalize_smul_of_pos hr u hu]
    by_cases hmd : e.movementSpeed * dt ≥ r
    · rw [if_pos hmd, if_pos hmd]
      simp only
      rw [hinert]
      rw [Vec3.sub_self', Vec3.length_zero,
        if_pos (by norm_num : (0 : ℝ) < 0.1)]
      exact applySeparationForces_of_none _ _ _ (fun o ho hq => hothers o ho hq.1)
    · rw [if_neg hmd, if_neg hmd]
      simp only
      rw [hinert]
      have hdes : e.position + (e.movementSpeed * dt) • u
          = e.targetPosition - (r - e.movementSpeed * dt) • u := by
        rw [hpos]
        ext <;> simp <;> ring
      rw [hdes]
      have hsub2 : e.targetPosition -
          (e.targetPosition - (r - e.movementSpeed * dt) • u)
          = (r - e.movementSpeed * dt) • u := by
        ext <;> simp
      rw [hsub2]
      have hmlt : 0 < r - e.movementSpeed * dt := by
        have := lt_of_not_ge hmd
        linarith
      have hlen2 : ((r - e.movementSpeed * dt) • u).length = r - e.movementSpeed * dt := by
        rw [Vec3.length_smul, hu, abs_of_pos hmlt, mul_one]
      rw [hlen2]
      by_cases hsnap : r - e.movementSpeed * dt < 0.1
      · rw [if_pos hsnap]
        exact applySeparationForces_of_none _ _ _ (fun o ho hq => hothers o ho hq.1)
      · rw [if_neg hsnap]
        exact applySeparationForces_of_none _ _ _ (fun o ho hq => hothers o ho hq.1)

theorem seek_converges (others : List Entity)
    (hothers : ∀ o ∈ others, ¬ considered o)
    (u : Vec3) (hu : u.length = 1) :
    ∀ (dts : List ℝ) (e : Entity) (r : ℝ),
      0 < e.movementSpeed → (∀ t ∈ dts, 0 < t) → e.isMoving = true →
      e.position = e.targetPosition - r • u → 0 < r →
      r ≤ e.movementSpeed * dts.sum →
      (dts.foldl (fun s t => update others s t) e).position = e.targetPosition ∧
      (dts.foldl (fun s t => update others s t) e).isMoving = false := by
  intro dts
  induction dts with
  | nil =>
    intro e r hspeed _ _ _ hr hsum
    simp only [List.sum_nil, mul_zero] at hsum
    exact absurd (lt_of_lt_of_le hr hsum) (lt_irrefl 0)
  | cons t ts ih =>
    intro e r hspeed hdts hm hpos hr hsum
    simp only [List.foldl_cons]
    rw [seek_step others e t u r hothers hu hr hpos hm]
    split_ifs with h1 h2 h3
    · rw [arrived_fold others ts _ hothers rfl]
      exact ⟨rfl, rfl⟩
    · rw [arrived_fold others ts _ hothers rfl]
      exact ⟨rfl, rfl⟩
    · rw [arrived_fold others ts _ hothers rfl]
      exact ⟨rfl, rfl⟩
    · have hts : ∀ s ∈ ts, 0 < s := fun s hs => hdts s (List.mem_cons_of_mem t hs)
      have hr' : 0 < r - e.movementSpeed * t := by
        have := lt_of_not_ge (by exact fun hge => h2 hge)
        have h3' := not_lt.mp h3
        linarith
      have hsum' : r - e.movementSpeed * t ≤ e.movementSpeed * ts.sum := by
        simp only [List.sum_cons] at hsum
        have : e.movementSpeed * (t + ts.sum)
            = e.movementSpeed * t + e.movementSpeed * ts.sum := by ring
        rw [this] at hsum
        linarith
      exact ih _ (r - e.movementSpeed * t) hspeed hts rfl rfl hr' hsum'

end MobEntity

/-- **C5** — Arrival: with no other active mobile entity in the registry,
`moveTo (P + d)` followed by positive `update` steps whose durations sum to
at least `|d| / movementSpeed` ends exactly at `P + d` (hence within the 0.1
epsilon) with `isMoving = false`. -/
theorem arrival (e : Entity) (d : Vec3) (others : List Entity) (dts : List ℝ)
    (hothers : ∀ o ∈ others, ¬ MobEntity.considered o)
    (hspeed : 0 < e.movementSpeed)
    (hdts : ∀ t ∈ dts, 0 < t)
    (hne : dts ≠ [])
    (hsum : d.length / e.movementSpeed ≤ dts.sum) :
    (dts.foldl (fun s t => MobEntity.update others s t)
        (MobEntity.moveTo e (e.position + d))).position = e.position + d ∧
    (dts.foldl (fun s t => MobEntity.update others s t)
        (MobEntity.moveTo e (e.position + d))).isMoving = false ∧
    ((dts.foldl (fun s t => MobEntity.update others s t)
        (MobEntity.moveTo e (e.position + d))).position - (e.position + d)).length ≤ 0.1 := by
  have main : (dts.foldl (fun s t => MobEntity.update others s t)
        (MobEntity.moveTo e (e.position + d))).position = e.position + d ∧
      (dts.foldl (fun s t => MobEntity.update others s t)
        (MobEntity.moveTo e (e.position + d))).isMoving = false := by
    by_cases hd : d.length ≤ 0.1
    · obtain ⟨t, ts, rfl⟩ := List.exists_cons_of_ne_nil hne
      simp only [List.foldl_cons]
      have hclose : ((MobEntity.moveTo e (e.position + d)).targetPosition -
          (MobEntity.moveTo e (e.position + d)).position).length ≤ 0.1 := by
        have hid : (MobEntity.moveTo e (e.position + d)).targetPosition -
            (MobEntity.moveTo e (e.position + d)).position = d := by
          show (e.position + d) - e.position = d
          ext <;> simp
        rw [hid]
        exact hd
      rw [MobEntity.update_arrives_if_close others _ t hothers rfl hclose]
      rw [MobEntity.arrived_fold others ts _ hothers rfl]
      exact ⟨rfl, rfl⟩
    · have hd0 : d ≠ 0 := by
        intro h
        rw [h, Vec3.length_zero] at hd
        norm_num at hd
      have hr : 0 < d.length := Vec3.length_pos_of_ne_zero hd0
      have hu : d.normalize.length = 1 := Vec3.length_normalize hd0
      have hpos : (MobEntity.moveTo e (e.position + d)).position
          = (MobEntity.moveTo e (e.position + d)).targetPosition -
            d.length • d.normalize := by
        show e.position = (e.position + d) - d.length • d.normalize
        have hnd : d.length • d.normalize = d := by
          unfold Vec3.normalize
          ext <;> simp <;> field_simp
        rw [hnd]
        ext <;> simp
      have hsum' : d.length
          ≤ (MobEntity.moveTo e (e.position + d)).movementSpeed * dts.sum := by
        show d.length ≤ e.movementSpeed * dts.sum
        rw [div_le_iff₀ hspeed] at hsum
        linarith
      exact MobEntity.seek_converges others hothers d.normalize hu dts
        (MobEntity.moveTo e (e.position + d)) d.length hspeed hdts rfl hpos hr hsum'
  refine ⟨main.1, main.2, ?_⟩
  rw [main.1, Vec3.sub_self', Vec3.length_zero]
  norm_num

/-- Witness for C5: entity at the origin, displacement (3,0,0), speed 5, one
update of duration 1 ≥ 3/5. -/
theorem arrival_witness :
    (([(1 : ℝ)].foldl (fun s t => MobEntity.update [] s t)
        (MobEntity.moveTo (mkMob 0 (1/2)) ((mkMob 0 (1/2)).position + ⟨3, 0, 0⟩))).position
      = (mkMob 0 (1/2)).position + ⟨3, 0, 0⟩) ∧
    ([(1 : ℝ)].foldl (fun s t => MobEntity.update [] s t)
        (MobEntity.moveTo (mkMob 0 (1/2)) ((mkMob 0 (1/2)).position + ⟨3, 0, 0⟩))).isMoving
      = false := by
  have h := arrival (mkMob 0 (1/2)) ⟨3, 0, 0⟩ [] [(1 : ℝ)]
    (by intro o ho; simp at ho)
    (by norm_num)
    (by
      intro t ht
      rw [List.mem_singleton] at ht
      rw [ht]
      norm_num)
    (by simp)
    (by norm_num [Vec3.length_mk_x, abs_of_nonneg])
  exact ⟨h.1, h.2.1⟩

/-- **C1 (amended)** — the AI chase controller's engagement gap is 1.0, not
0.2: with a single active party member at distance `d`, the enemy stops
(`stop()`, hence `isMoving = false`) exactly when
`0.7 × (ownRadius + targetRadius + 1.0) ≤ d ≤ ownRadius + targetRadius + 1.0`,
and (outside separation range) its position is unchanged by the update; in
the scenario with radii 0.5 the converged standoff distance is ≈ 2.0, not
1.2. -/
theorem shooter_stops_in_band (e p : Entity) (dt : ℝ)
    (hp : p.active = true)
    (hd : (p.position - e.position).length < BasicShooterEnemy.floatMax)
    (h1 : 0.7 * (e.radius + p.radius + 1.0) ≤ (p.position - e.position).length)
    (h2 : (p.position - e.position).length ≤ e.radius + p.radius + 1.0)
    (h3 : (e.radius + p.radius) * 1.2 ≤ (p.position - e.position).length) :
    (BasicShooterEnemy.update [p] [p] e dt).isMoving = false ∧
    (BasicShooterEnemy.update [p] [p] e dt).position = e.position := by
  have hdec : BasicShooterEnemy.aiDecision [p] [p] e dt = MobEntity.stop e := by
    unfold BasicShooterEnemy.aiDecision
    rw [if_pos (by simp : ([p] : List Entity) ≠ [])]
    rw [BasicShooterEnemy.chooseClosest_singleton p e.position hp hd]
    dsimp only
    rw [if_neg (not_lt.mpr h2), if_neg (not_lt.mpr (by linarith))]
  unfold BasicShooterEnemy.update
  rw [hdec]
  have hstop : MobEntity.update [p] (MobEntity.stop e) dt = MobEntity.stop e := by
    apply MobEntity.update_of_not_moving _ _ _ rfl
    intro o ho hq
    rw [List.mem_singleton] at ho
    subst ho
    have hlen := hq.2.1
    rw [Vec3.length_sub_comm] at hlen
    have : (MobEntity.stop e).position = e.position := rfl
    rw [this] at hlen
    have : (MobEntity.stop e).radius = e.radius := rfl
    rw [this] at hlen
    linarith
  rw [hstop]
  exact ⟨rfl, rfl⟩

/-- Witness for C1 (amended): enemy at the origin, party member at (2,0,0),
radii 0.5 — distance 2.0 is inside the code's stop band [1.4, 2.0]. -/
theorem shooter_stops_in_band_witness :
    (BasicShooterEnemy.update [mkMob ⟨2, 0, 0⟩ (1/2)] [mkMob ⟨2, 0, 0⟩ (1/2)]
        (mkMob 0 (1/2)) (1/10)).isMoving = false ∧
    (BasicShooterEnemy.update [mkMob ⟨2, 0, 0⟩ (1/2)] [mkMob ⟨2, 0, 0⟩ (1/2)]
        (mkMob 0 (1/2)) (1/10)).position = (mkMob (0 : Vec3) (1/2)).position :=
  shooter_stops_in_band (mkMob 0 (1/2)) (mkMob ⟨2, 0, 0⟩ (1/2)) (1/10)
    rfl
    (by norm_num [BasicShooterEnemy.floatMax, Vec3.length_mk_x, abs_of_nonneg])
    (by norm_num [Vec3.length_mk_x, abs_of_nonneg])
    (by norm_num [Vec3.length_mk_x, abs_of_nonneg])
    (by norm_num [Vec3.length_mk_x, abs_of_nonneg])

/-- **C1 (counterexample)** — the claimed stopping rule is wrong: at distance
1.1, inside the claimed stop band (0.7 × 1.2 = 0.84 < 1.1 < 1.2 =
ownRadius + targetRadius + 0.2), the AI decision phase of
`BasicShooterEnemy::update` does not call `stop()` at all — because the
code's engagement distance is `radius + radius + 1.0 = 2` and 1.1 < 0.7 × 2,
it takes the back-away branch and issues a move-intent (`isMoving = true`)
toward (-1/4, 0, 0), a point on the far side of the enemy from the target. -/
theorem shooter_moves_inside_claimed_band :
    ((mkMob (⟨11/10, 0, 0⟩ : Vec3) (1/2)).position -
        (mkMob (0 : Vec3) (1/2)).position).length < (1/2 : ℝ) + 1/2 + 0.2 ∧
    0.7 * ((1/2 : ℝ) + 1/2 + 0.2) <
      ((mkMob (⟨11/10, 0, 0⟩ : Vec3) (1/2)).position -
        (mkMob (0 : Vec3) (1/2)).position).length ∧
    BasicShooterEnemy.aiDecision [mkMob ⟨11/10, 0, 0⟩ (1/2)] [mkMob ⟨11/10, 0, 0⟩ (1/2)]
        (mkMob 0 (1/2)) (1/10) ≠ MobEntity.stop (mkMob 0 (1/2)) ∧
    (BasicShooterEnemy.aiDecision [mkMob ⟨11/10, 0, 0⟩ (1/2)] [mkMob ⟨11/10, 0, 0⟩ (1/2)]
        (mkMob 0 (1/2)) (1/10)).isMoving = true ∧
    (BasicShooterEnemy.aiDecision [mkMob ⟨11/10, 0, 0⟩ (1/2)] [mkMob ⟨11/10, 0, 0⟩ (1/2)]
        (mkMob 0 (1/2)) (1/10)).targetPosition = (⟨-(1/4), 0, 0⟩ : Vec3) := by
  have hdec : BasicShooterEnemy.aiDecision [mkMob ⟨11/10, 0, 0⟩ (1/2)]
      [mkMob ⟨11/10, 0, 0⟩ (1/2)] (mkMob 0 (1/2)) (1/10)
      = MobEntity.moveTo (mkMob 0 (1/2)) ⟨-(1/4), 0, 0⟩ := by
    unfold BasicShooterEnemy.aiDecision BasicShooterEnemy.chooseClosest
    norm_num [BasicShooterEnemy.floatMax, Vec3.length_mk_x, Vec3.normalize, abs_neg,
      abs_of_nonneg, mkMob, MobEntity.moveTo]
  refine ⟨by norm_num [Vec3.length_mk_x, abs_of_nonneg],
    by norm_num [Vec3.length_mk_x, abs_of_nonneg], ?_, ?_, ?_⟩
  · rw [hdec]
    intro hcontra
    have hm := congrArg Entity.isMoving hcontra
    simp [MobEntity.moveTo, MobEntity.stop] at hm
  · rw [hdec]
    rfl
  · rw [hdec]
    rfl

namespace WaypointSearch

theorem closestTo_aux_mem (t : Vec3) (l : List Vec3) :
    ∀ (b w : Vec3),
      l.foldl
        (fun acc s =>
          match acc with
          | none => some s
          | some b => if (t - s).length < (t - b).length then some s else some b)
        (some b) = some w →
      w = b ∨ w ∈ l := by
  induction l with
  | nil =>
    intro b w h
    simp only [List.foldl_nil, Option.some.injEq] at h
    exact Or.inl h.symm
  | cons a l ih =>
    intro b w h
    simp only [List.foldl_cons] at h
    by_cases hc : (t - a).length < (t - b).length
    · rw [if_pos hc] at h
      rcases ih a w h with rfl | hm
      · exact Or.inr (List.mem_cons_self _ _)
      · exact Or.inr (List.mem_cons_of_mem _ hm)
    · rw [if_neg hc] at h
      rcases ih b w h with rfl | hm
      · exact Or.inl rfl
      · exact Or.inr (List.mem_cons_of_mem _ hm)

theorem closestTo_mem (t : Vec3) (l : List Vec3) (w : Vec3)
    (h : closestTo t l = some w) : w ∈ l := by
  cases l with
  | nil => simp [closestTo] at h
  | cons a l =>
    unfold closestTo at h
    simp only [List.foldl_cons] at h
    rcases closestTo_aux_mem t l a w h with rfl | hm
    · exact List.mem_cons_self _ _
    · exact List.mem_cons_of_mem _ hm

theorem closestTo_aux_some (t : Vec3) (l : List Vec3) :
    ∀ b : Vec3, ∃ w,
      l.foldl
        (fun acc s =>
          match acc with
          | none => some s
          | some b => if (t - s).length < (t - b).length then some s else some b)
        (some b) = some w := by
  induction l with
  | nil => intro b; exact ⟨b, rfl⟩
  | cons a l ih =>
    intro b
    simp only [List.foldl_cons]
    by_cases hc : (t - a).length < (t - b).length
    · rw [if_pos hc]
      exact ih a
    · rw [if_neg hc]
      exact ih b

theorem closestTo_some (t : Vec3) (l : List Vec3) (h : l ≠ []) :
    ∃ w, closestTo t l = some w := by
  cases l with
  | nil => exact absurd rfl h
  | cons a l =>
    unfold closestTo
    simp only [List.foldl_cons]
    exact closestTo_aux_some t l a

theorem searchRings_mem (self : Entity) (nb : List Entity) (tg : Vec3) (ab : Bool) :
    ∀ (rl : List ℝ) (w : Vec3), searchRings self nb tg ab rl = some w →
      ∃ r ∈ rl, w ∈ (ringSamples self.position r).filter
        fun s => decide (accepted self nb tg ab s) := by
  intro rl
  induction rl with
  | nil => intro w h; simp [searchRings] at h
  | cons r rs ih =>
    intro w h
    unfold searchRings at h
    cases hsr : searchRing self nb tg ab r with
    | some v =>
      rw [hsr] at h
      simp only [Option.some.injEq] at h
      subst h
      exact ⟨r, List.mem_cons_self _ _,
        closestTo_mem tg _ v hsr⟩
    | none =>
      rw [hsr] at h
      exact
        let ⟨r', hr', hw⟩ := ih w h
        ⟨r', List.mem_cons_of_mem _ hr', hw⟩

theorem mem_filter_accepted (self : Entity) (nb : List Entity) (tg : Vec3) (ab : Bool)
    (r : ℝ) (w : Vec3)
    (h : w ∈ (ringSamples self.position r).filter
      fun s => decide (accepted self nb tg ab s)) :
    accepted self nb tg ab w := by
  have := (List.mem_filter.mp h).2
  simpa using this

end WaypointSearch

/-- **C4** — the waypoint search (modelled from the spec, section 4.3; no
implementation exists under `src/`) always returns a point that is either a
clearance-valid ring sample or the documented fallback of one radius-length
step straight toward the target (its ring recursion terminates by
well-founded descent on the shrinking radius); and in the scenario — self at
the origin with radius 0.5, one blocking neighbor at (2,0,0) with radius 1,
target (4,0,0), start radius 1 — the returned waypoint has clearance at
least half the self radius from the neighbor and non-negative dot product
with the direct-to-target direction. -/
theorem findWaypoint_total_and_scenario :
    (∀ (startRadius : ℝ) (self : Entity) (neighbors : List Entity) (target : Vec3),
      WaypointSearch.validAt self neighbors
          (WaypointSearch.findWaypoint startRadius self neighbors target) ∨
        WaypointSearch.findWaypoint startRadius self neighbors target
          = self.position + self.radius • (target - self.position).normalize) ∧
    ((WaypointSearch.findWaypoint 1 (mkMob 0 (1/2)) [mkMob ⟨2, 0, 0⟩ 1] ⟨4, 0, 0⟩ -
          (mkMob (⟨2, 0, 0⟩ : Vec3) 1).position).length -
        ((mkMob (0 : Vec3) (1/2)).radius + (mkMob (⟨2, 0, 0⟩ : Vec3) 1).radius)
        ≥ 0.5 * (mkMob (0 : Vec3) (1/2)).radius ∧
      (WaypointSearch.findWaypoint 1 (mkMob 0 (1/2)) [mkMob ⟨2, 0, 0⟩ 1] ⟨4, 0, 0⟩ -
          (mkMob (0 : Vec3) (1/2)).position).dot
        ((⟨4, 0, 0⟩ : Vec3) - (mkMob (0 : Vec3) (1/2)).position) ≥ 0) := by
  constructor
  · intro startRadius self neighbors target
    unfold WaypointSearch.findWaypoint
    dsimp only
    cases h1 : WaypointSearch.searchRings self neighbors target false
        (WaypointSearch.ringRadii self.radius startRadius) with
    | some w =>
      left
      obtain ⟨r, _, hw⟩ := WaypointSearch.searchRings_mem self neighbors target false _ w h1
      exact (WaypointSearch.mem_filter_accepted self neighbors target false r w hw).1
    | none =>
      cases h2 : WaypointSearch.searchRings self neighbors target true
          (WaypointSearch.ringRadii self.radius startRadius) with
      | some w =>
        left
        obtain ⟨r, _, hw⟩ := WaypointSearch.searchRings_mem self neighbors target true _ w h2
        exact (WaypointSearch.mem_filter_accepted self neighbors target true r w hw).1
      | none =>
        exact Or.inr rfl
  · have hang : 2 * Real.pi * ((4 : ℕ) : ℝ) / 16 = Real.pi / 2 := by push_cast; ring
    have hf4 : (mkMob (0 : Vec3) (1/2)).position +
        Vec3.mk (1 * Real.cos (2 * Real.pi * ((4 : ℕ) : ℝ) / 16)) 0
          (1 * Real.sin (2 * Real.pi * ((4 : ℕ) : ℝ) / 16)) = ⟨0, 0, 1⟩ := by
      rw [hang, Real.cos_pi_div_two, Real.sin_pi_div_two]
      simp
    have hmem : (⟨0, 0, 1⟩ : Vec3) ∈
        WaypointSearch.ringSamples (mkMob (0 : Vec3) (1/2)).position 1 := by
      unfold WaypointSearch.ringSamples
      refine List.mem_map.mpr ⟨4, ?_, ?_⟩
      · rw [List.mem_range]
        norm_num
      · simpa using hf4
    have hacc : WaypointSearch.accepted (mkMob 0 (1/2)) [mkMob ⟨2, 0, 0⟩ 1] ⟨4, 0, 0⟩
        false ⟨0, 0, 1⟩ := by
      constructor
      · intro o ho _
        rw [List.mem_singleton] at ho
        subst ho
        have hv : (⟨0, 0, 1⟩ : Vec3) - (mkMob (⟨2, 0, 0⟩ : Vec3) 1).position
            = ⟨-2, 0, 1⟩ := by
          ext <;> norm_num
        rw [hv, Vec3.length_mk_xz]
        have hs : Real.sqrt ((-2 : ℝ) ^ 2 + 1 ^ 2) = Real.sqrt 5 := by norm_num
        rw [hs]
        have h5 : (7/4 : ℝ) ≤ Real.sqrt 5 := by
          rw [Real.le_sqrt (by norm_num) (by norm_num)]
          norm_num
        simp only [mkMob_radius]
        linarith
      · right
        show ((⟨0, 0, 1⟩ : Vec3) - (mkMob (0 : Vec3) (1/2)).position).dot
            ((⟨4, 0, 0⟩ : Vec3) - (mkMob (0 : Vec3) (1/2)).position) ≥ 0
        norm_num [Vec3.dot]
    have hfne : ((WaypointSearch.ringSamples (mkMob (0 : Vec3) (1/2)).position 1).filter
        fun s => decide (WaypointSearch.accepted (mkMob 0 (1/2)) [mkMob ⟨2, 0, 0⟩ 1]
          ⟨4, 0, 0⟩ false s)) ≠ [] := by
      intro hnil
      rw [List.filter_eq_nil_iff] at hnil
      exact (hnil _ hmem) (by simpa using hacc)
    obtain ⟨w, hw⟩ := WaypointSearch.closestTo_some (⟨4, 0, 0⟩ : Vec3) _ hfne
    have hsr : WaypointSearch.searchRing (mkMob 0 (1/2)) [mkMob ⟨2, 0, 0⟩ 1] ⟨4, 0, 0⟩
        false 1 = some w := hw
    have hrad : WaypointSearch.ringRadii (mkMob (0 : Vec3) (1/2)).radius 1
        = 1 :: WaypointSearch.ringRadii (mkMob (0 : Vec3) (1/2)).radius (0.7 * 1) := by
      rw [WaypointSearch.ringRadii]
      rw [dif_pos (⟨by norm_num, by norm_num⟩ :
        (0 : ℝ) < (mkMob (0 : Vec3) (1/2)).radius ∧ (mkMob (0 : Vec3) (1/2)).radius ≤ 1)]
    have hsrs : WaypointSearch.searchRings (mkMob 0 (1/2)) [mkMob ⟨2, 0, 0⟩ 1] ⟨4, 0, 0⟩
        false (WaypointSearch.ringRadii (mkMob (0 : Vec3) (1/2)).radius 1) = some w := by
      rw [hrad]
      unfold WaypointSearch.searchRings
      rw [hsr]
    have hfw : WaypointSearch.findWaypoint 1 (mkMob 0 (1/2)) [mkMob ⟨2, 0, 0⟩ 1] ⟨4, 0, 0⟩
        = w := by
      unfold WaypointSearch.findWaypoint
      dsimp only
      rw [hsrs]
    have hwacc := WaypointSearch.mem_filter_accepted (mkMob 0 (1/2)) [mkMob ⟨2, 0, 0⟩ 1]
      ⟨4, 0, 0⟩ false 1 w (WaypointSearch.closestTo_mem _ _ _ hsr)
    constructor
    · rw [hfw]
      exact hwacc.1 (mkMob ⟨2, 0, 0⟩ 1) (List.mem_singleton.mpr rfl) ⟨rfl, rfl⟩
    · rw [hfw]
      rcases hwacc.2 with hab | hfwd
      · simp at hab
      · exact hfwd

/-- Witness for C4: in the scenario the returned waypoint makes non-negative
progress toward the target. -/
theorem findWaypoint_total_and_scenario_witness :
    (WaypointSearch.findWaypoint 1 (mkMob 0 (1/2)) [mkMob ⟨2, 0, 0⟩ 1] ⟨4, 0, 0⟩ -
        (mkMob (0 : Vec3) (1/2)).position).dot
      ((⟨4, 0, 0⟩ : Vec3) - (mkMob (0 : Vec3) (1/2)).position) ≥ 0 :=
  findWaypoint_total_and_scenario.2.2
